import Mathlib

/-!
Shallow embedding of the SWIFT-code scraper (src/swift_scraper.py) and proofs
about its specification claims.

Conventions of the embedding:
* Python strings are Lean `String`s; character-level processing is done on
  `List Char`.
* Python `dict` (insertion-ordered) is an association list `List (String × String)`
  with `dictGet` / `dictSet` mirroring `d.get(k)` / `d[k] = v`.
* `datetime` values are modelled by `PyDateTime` (an integer number of seconds
  together with an awareness flag); `datetime.fromisoformat` and
  `datetime.isoformat` are ambient-library functions and are therefore
  parameters of the embedding (`parseIso` / `fmtIso`), instantiated with a
  concrete table model for concrete runs.
* Fallible Python code is given an `Except PyErr` / explicit-outcome type;
  an uncaught exception inside a `while` loop is modelled by returning the
  state accumulated so far together with the error, which matches Python's
  in-place mutation of the shared accumulator and freshness dict.
* Network effects (page fetching, the RestCountries service, Mongo inserts)
  are parameters collected in an `Env`, so a run of `main` is a pure function
  of the environment.
-/

/-! ## Python datetime model -/

/-- Model of a Python `datetime`: a point on a seconds axis plus the
timezone-awareness flag.  Aware values carry absolute (epoch) seconds. -/
structure PyDateTime where
  seconds : Int
  aware : Bool
deriving DecidableEq

/-- Errors a modelled Python computation can raise. -/
inductive PyErr
  | typeError
  | pymongoError
  | other (msg : String)
deriving DecidableEq

instance {ε α : Type} [DecidableEq ε] [DecidableEq α] : DecidableEq (Except ε α) := fun x y =>
  match x, y with
  | Except.ok a, Except.ok b =>
    if h : a = b then isTrue (by rw [h])
    else isFalse (by intro hx; injection hx; exact h ‹_›)
  | Except.error a, Except.error b =>
    if h : a = b then isTrue (by rw [h])
    else isFalse (by intro hx; injection hx; exact h ‹_›)
  | Except.ok _, Except.error _ => isFalse (by intro hx; exact Except.noConfusion hx)
  | Except.error _, Except.ok _ => isFalse (by intro hx; exact Except.noConfusion hx)

/-- Subtraction of Python datetimes (`a - b`, in seconds): subtracting a naive
datetime from an aware one (or vice versa) raises `TypeError`. -/
def pySub (a b : PyDateTime) : Except PyErr Int :=
  if a.aware == b.aware then Except.ok (a.seconds - b.seconds)
  else Except.error PyErr.typeError

/-! ## Insertion-ordered dict model -/

/-- Python `d.get(k)` on an insertion-ordered dict. -/
def dictGet : List (String × String) → String → Option String
  | [], _ => none
  | (k0, v0) :: rest, k => if k0 = k then some v0 else dictGet rest k

/-- Python `d[k] = v` on an insertion-ordered dict: overwrite in place if the
key exists, else append. -/
def dictSet : List (String × String) → String → String → List (String × String)
  | [], k, v => [(k, v)]
  | (k0, v0) :: rest, k, v =>
    if k0 = k then (k0, v) :: rest else (k0, v0) :: dictSet rest k v

/-! ## Freshness decision (`should_scrape`) -/

/-- `FRESHNESS_WEEKS = 4`. -/
def FRESHNESS_WEEKS : Nat := 4

/-- Seconds in `timedelta(weeks=FRESHNESS_WEEKS)`. -/
def freshnessWindowSeconds : Int := FRESHNESS_WEEKS * 7 * 24 * 3600

/-- Python truthiness of an `Optional[str]`: `None` and the empty string are
falsy. -/
def pyFalsyOptStr : Option String → Bool
  | none => true
  | some s => s == ""

/-- Embedding of `should_scrape(iso2, freshness)`.  `parse` models
`datetime.fromisoformat` (`none` = raises `ValueError`), `fmt` models
`.isoformat()`, `now` models `datetime.now(timezone.utc)`.  Only the parse is
inside the `try`; the age subtraction can raise (`Except.error`). -/
def should_scrape (parse : String → Option PyDateTime) (fmt : PyDateTime → String)
    (now : PyDateTime) (iso2 : Option String) (freshness : List (String × String)) :
    Except PyErr (Bool × String) :=
  match iso2 with
  | none => Except.ok (true, "No iso2 code; defaulting to scrape.")
  | some code =>
    if code == "" then Except.ok (true, "No iso2 code; defaulting to scrape.")
    else
      match dictGet freshness code with
      | none => Except.ok (true, "No previous scrape recorded.")
      | some last_str =>
        if last_str == "" then Except.ok (true, "No previous scrape recorded.")
        else
          match parse last_str with
          | none => Except.ok (true, "Invalid stored date " ++ last_str ++ ", scraping.")
          | some last_dt =>
            match pySub now last_dt with
            | Except.error e => Except.error e
            | Except.ok age =>
              if age < freshnessWindowSeconds then
                Except.ok (false, "Scraped recently at " ++ fmt last_dt ++ ".")
              else
                Except.ok (true, "Data stale; last scrape at " ++ fmt last_dt ++ ".")

/-! ## Identity resolver (`lookup_iso`) -/

/-- One element of the RestCountries response list; `nameCommon` models
`c.get("name", {}).get("common")`. -/
structure RestCountry where
  cca2 : Option String
  cca3 : Option String
  nameCommon : Option String
deriving DecidableEq

/-- Body of an HTTP response as seen through `resp.json()`:
it can raise, be a non-list JSON value, or be a list of country records. -/
inductive JsonBody
  | raises
  | notList
  | list (items : List RestCountry)
deriving DecidableEq

/-- Outcome of `requests.get` for one lookup: a transport error (raises), or a
response with a status code and a body. -/
inductive HttpResult
  | transportError
  | response (status : Nat) (body : JsonBody)
deriving DecidableEq

/-- Embedding of `lookup_iso(country_name)`, parametrised by the external
service `svc` (keyed by the looked-up name).  `resp.raise_for_status()` raises
exactly for the client- and server-error status codes `400 ≤ status < 600`
(for any other status, including `≥ 600`, requests returns normally); every
raise is caught and yields the all-`none` triple. -/
def lookup_iso (svc : String → HttpResult) (country_name : String) :
    Option String × Option String × Option String :=
  if country_name == "" then (none, none, none)
  else
    match svc country_name with
    | HttpResult.transportError => (none, none, none)
    | HttpResult.response status body =>
      if 400 ≤ status ∧ status < 600 then (none, none, none)
      else
        match body with
        | JsonBody.raises => (none, none, none)
        | JsonBody.notList => (none, none, none)
        | JsonBody.list [] => (none, none, none)
        | JsonBody.list (c :: _) => (c.cca2, c.cca3, c.nameCommon)

/-! ## Country-name normalizer (`normalize_country_name`) -/

/-- The whitespace set used by Python `str.strip()` / `str.split()`
(CPython's `Py_UNICODE_ISSPACE`): the ASCII whitespace `\t`–`\r` and space,
the separator controls `\x1c`–`\x1f`, NEL (U+0085), NBSP (U+00A0), the Ogham
space mark (U+1680), the typographic spaces U+2000–U+200A, the line and
paragraph separators (U+2028, U+2029), the narrow no-break space (U+202F),
the medium mathematical space (U+205F) and the ideographic space (U+3000). -/
def pyWsChar (c : Char) : Bool :=
  (0x09 ≤ c.toNat && c.toNat ≤ 0x0d) ||
  (0x1c ≤ c.toNat && c.toNat ≤ 0x1f) ||
  c.toNat == 0x20 || c.toNat == 0x85 || c.toNat == 0xa0 ||
  c.toNat == 0x1680 ||
  (0x2000 ≤ c.toNat && c.toNat ≤ 0x200a) ||
  c.toNat == 0x2028 || c.toNat == 0x2029 || c.toNat == 0x202f ||
  c.toNat == 0x205f || c.toNat == 0x3000

/-- Membership in the explicit strip set of `s.strip("/_. \t\r\n")`. -/
def stripSetChar (c : Char) : Bool :=
  c == '/' || c == '_' || c == '.' || c == ' ' || c == '\t' || c == '\r' || c == '\n'

/-- Python `s.strip(chars)` on a character list: drop the maximal prefix and
suffix of characters satisfying `p`. -/
def pyStrip (p : Char → Bool) (l : List Char) : List Char :=
  ((l.dropWhile p).reverse.dropWhile p).reverse

/-- Python `s.replace(a, b)` for single characters. -/
def pyReplaceChar (a b : Char) (l : List Char) : List Char :=
  l.map fun c => if c == a then b else c

/-- Python `s.split()` (no argument): split on whitespace runs, discarding
empty fragments. -/
def pySplitWs (l : List Char) : List (List Char) :=
  (l.splitOnP pyWsChar).filter fun w => !w.isEmpty

/-- Python `" ".join(words)` on character lists. -/
def joinSp : List (List Char) → List Char
  | [] => []
  | [w] => w
  | w :: ws => w ++ ' ' :: joinSp ws

/-- Modification of the last element of a list of words (used to reason about
splitting a list that ends in a non-separator character). -/
def modLast (f : List Char → List Char) : List (List Char) → List (List Char)
  | [] => []
  | [w] => [f w]
  | w :: ws => w :: modLast f ws

/-- Embedding of `normalize_country_name` at the character-list level:
default strip, strip of `"/_. \t\r\n"`, replacement of underscores and
hyphens by spaces, then whitespace collapse via split/join. -/
def normalizeL (l : List Char) : List Char :=
  if l.isEmpty then []
  else
    joinSp (pySplitWs (pyReplaceChar '-' ' ' (pyReplaceChar '_' ' '
      (pyStrip stripSetChar (pyStrip pyWsChar l)))))

/-- Embedding of `normalize_country_name` on `String`. -/
def normalize_country_name (s : String) : String :=
  (normalizeL s.toList).asString

/-! ## Rows, documents and the dual-sink page loop -/

/-- One extracted table row. -/
structure Row where
  name : String
  swift_code : String
  city : String
  branch : String
deriving DecidableEq

/-- An enriched document: row fields plus country identity and provenance.
`createdAt` / `updatedAt` are absent until the Mongo writer stamps them. -/
structure Doc where
  iso_code : Option String
  iso3 : Option String
  country : String
  page : String
  name : String
  swift_code : String
  city : String
  branch : String
  createdAt : Option PyDateTime := none
  updatedAt : Option PyDateTime := none
deriving DecidableEq

/-- Decoration of one row with country and iso info (`scrape_country`, the
`doc = {..., **row}` construction). -/
def enrichRow (iso2 iso3 : Option String) (country_name path : String) (row : Row) : Doc :=
  { iso_code := iso2, iso3 := iso3, country := country_name, page := path,
    name := row.name, swift_code := row.swift_code, city := row.city,
    branch := row.branch }

/-- Embedding of `save_documents_mongo(coll, docs)`.  The timestamp mutation
(`setdefault("createdAt", now)`, `d["updatedAt"] = now`) happens in place
before the insert, so the caller keeps the mutated documents even when the
insert raises: the function returns the mutated list together with the
outcome of `insert_many` (`insertOk = false` models a raising insert). -/
def save_documents_mongo (insertOk : Bool) (now : PyDateTime) (docs : List Doc) :
    List Doc × Option PyErr :=
  if docs.isEmpty then (docs, none)
  else
    let stamped := docs.map fun d =>
      { d with createdAt := some (d.createdAt.getD now), updatedAt := some now }
    (stamped, if insertOk then none else some PyErr.pymongoError)

/-- External world of one run: page fetching/parsing (`parse_country_page`,
which raises on fetch or parse failure), the RestCountries service, the
outcome of each Mongo batch insert (keyed by the page the batch came from),
and the datetime library with the run clock. -/
structure Env where
  fetchPage : String → Except PyErr (List Row × Option String)
  svc : String → HttpResult
  insertOk : String → Bool
  parseIso : String → Option PyDateTime
  fmtIso : PyDateTime → String
  now : PyDateTime

/-- Outcome of the pagination loop of `scrape_country`: normal exit, a
propagating exception, or exhaustion of the step budget of the model. -/
inductive LoopResult
  | done
  | error (e : PyErr)
  | outOfFuel
deriving DecidableEq

/-- Embedding of the `while current_path:` pagination loop of
`scrape_country`.  `acc` is the shared `all_docs` accumulator, `trace` records
every page for which a fetch was attempted.  On a fetch/parse error the
accumulator retains the documents of earlier pages (Python mutates it in
place) and the loop reports the error. -/
def scrapePages (E : Env) (coll : Bool) (iso2 iso3 : Option String)
    (country_name : String) :
    Nat → Option String → List Doc → List String → List Doc × List String × LoopResult
  | _, none, acc, trace => (acc, trace, LoopResult.done)
  | fuel, some path, acc, trace =>
    if path == "" then (acc, trace, LoopResult.done)
    else
      match fuel with
      | 0 => (acc, trace, LoopResult.outOfFuel)
      | fuel' + 1 =>
        match E.fetchPage path with
        | Except.error e => (acc, trace ++ [path], LoopResult.error e)
        | Except.ok (rows, next_href) =>
          let docs := rows.map (enrichRow iso2 iso3 country_name path)
          let saved := if coll then save_documents_mongo (E.insertOk path) E.now docs
                       else (docs, none)
          scrapePages E coll iso2 iso3 country_name fuel' next_href
            (acc ++ saved.1) (trace ++ [path])

/-- Shared mutable state of a run: the freshness dict and the `all_docs`
accumulator. -/
structure ScrapeState where
  freshness : List (String × String)
  all_docs : List Doc
deriving DecidableEq

/-- The raw country name derived from the href:
`country_href.strip("/").split("_")[0]`. -/
def raw_from_href (href : String) : String :=
  ((pyStrip (fun c => c == '/') href.toList).takeWhile fun c => !(c == '_')).asString

/-- Embedding of `scrape_country`.  Derives the country name, resolves the
identity, consults the freshness ledger, walks the pages, and updates the
ledger only when the walk finished without error and an iso2 was resolved.
A raising `should_scrape` or page fetch is reported in the `LoopResult`
while the state keeps all in-place mutations made so far. -/
def scrape_country (E : Env) (coll : Bool) (country_href country_label : String)
    (fuel : Nat) (st : ScrapeState) : ScrapeState × LoopResult :=
  let raw := raw_from_href country_href
  let country_name := normalize_country_name (if raw == "" then country_label else raw)
  let resolved := lookup_iso E.svc country_name
  let iso2 := resolved.1
  let iso3 := resolved.2.1
  match should_scrape E.parseIso E.fmtIso E.now iso2 st.freshness with
  | Except.error e => (st, LoopResult.error e)
  | Except.ok (ok, _reason) =>
    if !ok then (st, LoopResult.done)
    else
      let walked := scrapePages E coll iso2 iso3 country_name fuel
        (some country_href) st.all_docs []
      match walked.2.2 with
      | LoopResult.done =>
        let freshness' :=
          match iso2 with
          | none => st.freshness
          | some code =>
            if code == "" then st.freshness
            else dictSet st.freshness code (E.fmtIso E.now)
        ({ freshness := freshness', all_docs := walked.1 }, LoopResult.done)
      | r => ({ freshness := st.freshness, all_docs := walked.1 }, r)

/-- The per-country loop of `main`: each country is scraped inside a
`try/except` boundary, so errors are logged and the loop continues with the
next country on the state mutated so far. -/
def mainLoop (E : Env) (coll : Bool) (fuel : Nat) :
    List (String × String) → ScrapeState → ScrapeState
  | [], st => st
  | (href, label) :: rest, st =>
    mainLoop E coll fuel rest (scrape_country E coll href label fuel st).1

/-- What a run leaves on disk: the data file (absent when nothing was
collected) and the freshness file (always written). -/
structure RunResult where
  data_file : Option (List Doc)
  freshness_file : List (String × String)
deriving DecidableEq

/-- Embedding of `main` after the directory listing succeeded: `links` is the
result of `get_country_links`, `coll` records whether `get_mongo_collection`
succeeded, `init_freshness` is the loaded ledger.  The data file is written
only when `all_docs` is non-empty; the freshness dict is persisted
unconditionally. -/
def mainRun (E : Env) (coll : Bool) (links : List (String × String))
    (init_freshness : List (String × String)) (fuel : Nat) : RunResult :=
  let final := mainLoop E coll fuel links { freshness := init_freshness, all_docs := [] }
  { data_file := if final.all_docs.isEmpty then none else some final.all_docs,
    freshness_file := final.freshness }

/-! ## Page chains -/

/-- Documents produced from one page batch: enriched rows, stamped by the
Mongo writer when a collection is configured. -/
def pageDocs (E : Env) (coll : Bool) (iso2 iso3 : Option String)
    (country_name path : String) (rows : List Row) : List Doc :=
  let docs := rows.map (enrichRow iso2 iso3 country_name path)
  if coll then (save_documents_mongo (E.insertOk path) E.now docs).1 else docs

/-- The start pointer of a chain segment (`None` when the segment is empty). -/
def chainNext : List (String × List Row) → Option String
  | [] => none
  | (p, _) :: _ => some p

/-- `GoodChain E ps` states that the fetcher links the pages `ps` into a
chain: each page has a non-empty path, fetching it yields its rows and the
pointer to the next page, and the last page has no next pointer. -/
def GoodChain (E : Env) : List (String × List Row) → Prop
  | [] => True
  | (p, rows) :: rest =>
    (p == "") = false ∧ E.fetchPage p = Except.ok (rows, chainNext rest) ∧ GoodChain E rest

/-- The start pointer of a chain segment that is followed by a failing page
`bad`. -/
def chainNextB : List (String × List Row) → String → Option String
  | [], bad => some bad
  | (p, _) :: _, _ => some p

/-- `BrokenChain E e ps bad` states that the pages `ps` fetch correctly and
link to each other, the last of them points at `bad`, and fetching `bad`
raises `e`. -/
def BrokenChain (E : Env) (e : PyErr) : List (String × List Row) → String → Prop
  | [], bad => (bad == "") = false ∧ E.fetchPage bad = Except.error e
  | (p, rows) :: rest, bad =>
    (p == "") = false ∧ E.fetchPage p = Except.ok (rows, chainNextB rest bad) ∧
    BrokenChain E e rest bad

/-- Concatenation, in page order, of the documents of a chain. -/
def chainDocs (E : Env) (coll : Bool) (iso2 iso3 : Option String)
    (country_name : String) : List (String × List Row) → List Doc
  | [] => []
  | (p, rows) :: rest =>
    pageDocs E coll iso2 iso3 country_name p rows ++
    chainDocs E coll iso2 iso3 country_name rest

/-! ## Concrete model instances for witnesses and counterexamples -/

/-- Modelled from the spec and Python: value table for
`datetime.fromisoformat` on the timestamp strings used in concrete runs.
`2024-01-01T00:00:00` parses to a naive datetime (no timezone), the
`+00:00`-suffixed strings parse aware, and `not-a-date` raises. -/
def fromisoformatModel (s : String) : Option PyDateTime :=
  if s == "2024-01-01T00:00:00" then some { seconds := 1704067200, aware := false }
  else if s == "2024-01-01T00:00:00+00:00" then some { seconds := 1704067200, aware := true }
  else if s == "2020-01-01T00:00:00+00:00" then some { seconds := 1577836800, aware := true }
  else if s == "2024-05-31T00:00:00+00:00" then some { seconds := 1717113600, aware := true }
  else if s == "2024-06-01T00:00:00+00:00" then some { seconds := 1717200000, aware := true }
  else none

/-- Modelled from Python: value table for `datetime.isoformat` on the
datetimes used in concrete runs, with a schematic fallback. -/
def isoformatModel (dt : PyDateTime) : String :=
  if dt == { seconds := 1704067200, aware := false } then "2024-01-01T00:00:00"
  else if dt == { seconds := 1704067200, aware := true } then "2024-01-01T00:00:00+00:00"
  else if dt == { seconds := 1577836800, aware := true } then "2020-01-01T00:00:00+00:00"
  else if dt == { seconds := 1717113600, aware := true } then "2024-05-31T00:00:00+00:00"
  else if dt == { seconds := 1717200000, aware := true } then "2024-06-01T00:00:00+00:00"
  else "ts:" ++ toString dt.seconds

/-- The run clock of the concrete environments: 2024-06-01T00:00:00+00:00. -/
def nowModel : PyDateTime := { seconds := 1717200000, aware := true }

/-- The single row of the end-to-end scenario. -/
def demoRow : Row :=
  { name := "Bank A", swift_code := "AAAABBCC", city := "Town", branch := "HQ" }

/-- Concrete environment of the end-to-end scenario: one country page with one
row and no next page; the identity service resolves the derived name to
iso2 = XX. -/
def demoEnv : Env :=
  { fetchPage := fun p =>
      if p == "/x_swift_codes.html" then Except.ok ([demoRow], none)
      else Except.error (PyErr.other "404"),
    svc := fun n =>
      if n == "x" then
        HttpResult.response 200 (JsonBody.list
          [{ cca2 := some "XX", cca3 := some "XXA", nameCommon := some "Xland" }])
      else HttpResult.response 404 JsonBody.raises,
    insertOk := fun _ => true,
    parseIso := fromisoformatModel,
    fmtIso := isoformatModel,
    now := nowModel }

/-- The enriched document the end-to-end scenario actually produces (its
country field is the href-derived name `x`, not the directory label `X`). -/
def demoOutDoc : Doc :=
  { iso_code := some "XX", iso3 := some "XXA", country := "x",
    page := "/x_swift_codes.html", name := "Bank A", swift_code := "AAAABBCC",
    city := "Town", branch := "HQ" }

/-- Rows of the three pages of the synthetic chain environments. -/
def chRow (i : Nat) : Row :=
  { name := "Bank " ++ toString i, swift_code := "SW" ++ toString i,
    city := "City " ++ toString i, branch := "" }

/-- Concrete environment with a well-formed three-page chain
`/p1 → /p2 → /p3` for country `zland`. -/
def chainEnvOk : Env :=
  { fetchPage := fun p =>
      if p == "/zland_swift_codes.html" then Except.ok ([chRow 1], some "/p2")
      else if p == "/p2" then Except.ok ([chRow 2], some "/p3")
      else if p == "/p3" then Except.ok ([chRow 3], none)
      else Except.error (PyErr.other "404"),
    svc := fun n =>
      if n == "zland" then
        HttpResult.response 200 (JsonBody.list
          [{ cca2 := some "ZZ", cca3 := some "ZZZ", nameCommon := some "Zland" }])
      else HttpResult.response 404 JsonBody.raises,
    insertOk := fun _ => true,
    parseIso := fromisoformatModel,
    fmtIso := isoformatModel,
    now := nowModel }

/-- The three-page chain of `chainEnvOk` as a chain description. -/
def chain3 : List (String × List Row) :=
  [("/zland_swift_codes.html", [chRow 1]), ("/p2", [chRow 2]), ("/p3", [chRow 3])]

/-- Concrete environment whose three-page chain fails on page 2: fetching
`/p2` raises, `/p3` would exist but is never reached. -/
def chainEnvBad : Env :=
  { chainEnvOk with
    fetchPage := fun p =>
      if p == "/zland_swift_codes.html" then Except.ok ([chRow 1], some "/p2")
      else if p == "/p2" then Except.error (PyErr.other "boom")
      else if p == "/p3" then Except.ok ([chRow 3], none)
      else Except.error (PyErr.other "404") }

/-- Concrete environment in which every Mongo insert raises. -/
def chainEnvNoMongo : Env :=
  { chainEnvOk with insertOk := fun _ => false }

/-- Concrete service returning a 304 (a non-2xx status that
`raise_for_status` does not raise on) with a list body. -/
def svc304 : String → HttpResult := fun _ =>
  HttpResult.response 304 (JsonBody.list
    [{ cca2 := some "AA", cca3 := some "AAA", nameCommon := some "Aland" }])

/-- Concrete service returning status 999 (outside the 400-599 range
`raise_for_status` raises on, and also non-2xx) with a list body. -/
def svc999 : String → HttpResult := fun _ =>
  HttpResult.response 999 (JsonBody.list
    [{ cca2 := some "AA", cca3 := some "AAA", nameCommon := some "Aland" }])

/-- The document the end-to-end scenario produces when the Mongo sink is
configured: `demoOutDoc` stamped with the run clock. -/
def demoOutDocM : Doc :=
  { demoOutDoc with createdAt := some nowModel, updatedAt := some nowModel }

/-- Shape of the timestamp fields every accumulated document has, depending
on whether the Mongo sink is configured for the run. -/
def stampedFor (coll : Bool) (now : PyDateTime) (d : Doc) : Prop :=
  if coll then d.createdAt = some now ∧ d.updatedAt = some now
  else d.createdAt = none ∧ d.updatedAt = none

/-! ## Dictionary lemmas -/

theorem dictGet_dictSet (d : List (String × String)) (k v k' : String) :
    dictGet (dictSet d k v) k' = if k' = k then some v else dictGet d k' := by
  induction d with
  | nil =>
    simp only [dictSet, dictGet]
    by_cases h : k' = k
    · subst h; simp
    · rw [if_neg (fun hh => h hh.symm), if_neg h]
  | cons hd tl ih =>
    obtain ⟨k0, v0⟩ := hd
    simp only [dictSet]
    by_cases h1 : k0 = k
    · rw [if_pos h1]
      subst h1
      simp only [dictGet]
      by_cases h2 : k0 = k'
      · subst h2; simp
      · rw [if_neg h2, if_neg (fun hh => h2 hh.symm), if_neg h2]
    · rw [if_neg h1]
      simp only [dictGet, ih]
      by_cases h2 : k0 = k'
      · subst h2; simp [h1]
      · simp [h2]

/-! ## C7: identity resolver fallback behavior -/

/-- C7 counterexample: the claim says any non-2xx response yields the
all-absent triple, but `raise_for_status` raises only for statuses in
400-599.  A 304 response and a 999 response carrying a list body are both
non-2xx, yet `lookup_iso` returns the first candidate's codes instead of the
all-absent triple. -/
theorem C7_counterexample :
    lookup_iso svc304 "q" = (some "AA", some "AAA", some "Aland") ∧
    lookup_iso svc304 "q" ≠ (none, none, none) ∧
    lookup_iso svc999 "q" = (some "AA", some "AAA", some "Aland") ∧
    lookup_iso svc999 "q" ≠ (none, none, none) := by
  refine ⟨by decide, by decide, by decide, by decide⟩

/-- C7 (amended): `lookup_iso` on an empty name is all-absent regardless of
the service; on a transport error, an error status in 400-599 (exactly the
statuses `raise_for_status` raises on), or an empty result list it returns
all-absent without propagating; on any non-raising status (below 400 or from
600 up) with a non-empty list body it returns the first candidate's short
code, long code and common name. -/
theorem C7_amended :
    (∀ svc : String → HttpResult, lookup_iso svc "" = (none, none, none)) ∧
    (∀ (svc : String → HttpResult) (name : String), name ≠ "" →
      svc name = HttpResult.transportError →
      lookup_iso svc name = (none, none, none)) ∧
    (∀ (svc : String → HttpResult) (name : String) (status : Nat) (body : JsonBody),
      name ≠ "" → svc name = HttpResult.response status body →
      400 ≤ status → status < 600 →
      lookup_iso svc name = (none, none, none)) ∧
    (∀ (svc : String → HttpResult) (name : String) (status : Nat),
      name ≠ "" → svc name = HttpResult.response status (JsonBody.list []) →
      ¬(400 ≤ status ∧ status < 600) →
      lookup_iso svc name = (none, none, none)) ∧
    (∀ (svc : String → HttpResult) (name : String) (status : Nat) (c : RestCountry)
      (cs : List RestCountry),
      name ≠ "" → svc name = HttpResult.response status (JsonBody.list (c :: cs)) →
      ¬(400 ≤ status ∧ status < 600) →
      lookup_iso svc name = (c.cca2, c.cca3, c.nameCommon)) := by
  refine ⟨fun svc => rfl, ?_, ?_, ?_, ?_⟩
  · intro svc name hname hsvc
    simp [lookup_iso, hname, hsvc]
  · intro svc name status body hname hsvc h400 h600
    simp [lookup_iso, hname, hsvc, h400, h600]
  · intro svc name status hname hsvc hno
    simp [lookup_iso, hname, hsvc, hno]
  · intro svc name status c cs hname hsvc hno
    simp [lookup_iso, hname, hsvc, hno]

/-- C7 witness: the amended branches at concrete inputs (success on the
end-to-end service at status 200, error status at the 404 branch of the same
service, all-absent on an empty name). -/
theorem C7_witness :
    lookup_iso demoEnv.svc "x" = (some "XX", some "XXA", some "Xland") ∧
    lookup_iso demoEnv.svc "y" = (none, none, none) ∧
    lookup_iso demoEnv.svc "" = (none, none, none) := by
  refine ⟨?_, ?_, ?_⟩
  · exact C7_amended.2.2.2.2 demoEnv.svc "x" 200
      { cca2 := some "XX", cca3 := some "XXA", nameCommon := some "Xland" } []
      (by decide) (by decide) (by decide)
  · exact C7_amended.2.2.1 demoEnv.svc "y" 404 JsonBody.raises
      (by decide) (by decide) (by decide) (by decide)
  · exact C7_amended.1 demoEnv.svc

/-! ## C9: should_scrape is not total (naive stored timestamps) -/

/-- C9: when the stored timestamp parses to a timezone-naive datetime, the
age subtraction (which is outside the `try`) raises `TypeError` and
`should_scrape` does not return a `(bool, reason)` pair. -/
theorem C9_naive_timestamp_raises (parse : String → Option PyDateTime)
    (fmt : PyDateTime → String) (now : PyDateTime) (code s : String)
    (dt : PyDateTime) (fr : List (String × String)) (hcode : code ≠ "")
    (hget : dictGet fr code = some s) (hs : s ≠ "") (hparse : parse s = some dt)
    (hnaive : dt.aware = false) (hnow : now.aware = true) :
    should_scrape parse fmt now (some code) fr = Except.error PyErr.typeError := by
  simp [should_scrape, hcode, hget, hs, hparse, pySub, hnaive, hnow]

/-- C9 witness: a concrete ledger entry that `fromisoformat` accepts as a
naive datetime makes `should_scrape` raise. -/
theorem C9_witness :
    should_scrape fromisoformatModel isoformatModel nowModel (some "DE")
      [("DE", "2024-01-01T00:00:00")] = Except.error PyErr.typeError :=
  C9_naive_timestamp_raises fromisoformatModel isoformatModel nowModel "DE"
    "2024-01-01T00:00:00" { seconds := 1704067200, aware := false } _
    (by decide) (by decide) (by decide) (by decide) (by decide) (by decide)

/-! ## C1: the freshness decision order -/

/-- C1 counterexample: the claim quantifies over every ledger mapping, but a
stored timestamp that parses as a naive ISO-8601 datetime makes
`should_scrape` raise `TypeError` instead of returning any `(bool, reason)`
pair — in particular not the stale result the five-step order would demand
for this months-old timestamp. -/
theorem C1_counterexample :
    should_scrape fromisoformatModel isoformatModel nowModel (some "XX")
      [("XX", "2024-01-01T00:00:00")] = Except.error PyErr.typeError ∧
    should_scrape fromisoformatModel isoformatModel nowModel (some "XX")
      [("XX", "2024-01-01T00:00:00")] ≠
      Except.ok (true, "Data stale; last scrape at 2024-01-01T00:00:00.") := by
  constructor
  · decide
  · decide

/-- C1 (amended): the five-step decision order holds whenever the stored
timestamp, if it parses at all, parses to a timezone-aware value (a naive
value makes the age subtraction raise instead): absent/empty iso2 → scrape
with the no-identity reason; no (or empty) ledger entry → scrape with the
no-prior-record reason; unparsable timestamp → scrape with the invalid-date
reason; age < 4 weeks → no scrape, reason carrying the stored timestamp;
otherwise → scrape with the stale reason. -/
theorem C1_decision_order (parse : String → Option PyDateTime)
    (fmt : PyDateTime → String) (now : PyDateTime) (hnow : now.aware = true)
    (iso2 : Option String) (fr : List (String × String)) :
    (pyFalsyOptStr iso2 = true →
      should_scrape parse fmt now iso2 fr =
        Except.ok (true, "No iso2 code; defaulting to scrape.")) ∧
    (∀ code, iso2 = some code → code ≠ "" →
      pyFalsyOptStr (dictGet fr code) = true →
      should_scrape parse fmt now iso2 fr =
        Except.ok (true, "No previous scrape recorded.")) ∧
    (∀ code s, iso2 = some code → code ≠ "" → dictGet fr code = some s →
      s ≠ "" → parse s = none →
      should_scrape parse fmt now iso2 fr =
        Except.ok (true, "Invalid stored date " ++ s ++ ", scraping.")) ∧
    (∀ code s dt, iso2 = some code → code ≠ "" → dictGet fr code = some s →
      s ≠ "" → parse s = some dt → dt.aware = true →
      now.seconds - dt.seconds < freshnessWindowSeconds →
      should_scrape parse fmt now iso2 fr =
        Except.ok (false, "Scraped recently at " ++ fmt dt ++ ".")) ∧
    (∀ code s dt, iso2 = some code → code ≠ "" → dictGet fr code = some s →
      s ≠ "" → parse s = some dt → dt.aware = true →
      freshnessWindowSeconds ≤ now.seconds - dt.seconds →
      should_scrape parse fmt now iso2 fr =
        Except.ok (true, "Data stale; last scrape at " ++ fmt dt ++ ".")) := by
  refine ⟨?_, ?_, ?_, ?_, ?_⟩
  · intro hfalsy
    match iso2, hfalsy with
    | none, _ => rfl
    | some code, h =>
      have hc : code = "" := by simpa [pyFalsyOptStr] using h
      simp [should_scrape, hc]
  · intro code hiso hcode hfalsy
    subst hiso
    match hg : dictGet fr code, hfalsy with
    | none, _ => simp [should_scrape, hcode, hg]
    | some s, h =>
      have hs : s = "" := by simpa [pyFalsyOptStr, hg] using h
      simp [should_scrape, hcode, hg, hs]
  · intro code s hiso hcode hget hs hparse
    subst hiso
    simp [should_scrape, hcode, hget, hs, hparse]
  · intro code s dt hiso hcode hget hs hparse haware hage
    subst hiso
    simp [should_scrape, hcode, hget, hs, hparse, pySub, haware, hnow, hage]
  · intro code s dt hiso hcode hget hs hparse haware hage
    subst hiso
    simp [should_scrape, hcode, hget, hs, hparse, pySub, haware, hnow,
      Int.not_lt.mpr hage]

/-- C1 witness: the do-not-scrape branch at a concrete ledger whose aware
timestamp is one day old. -/
theorem C1_witness :
    should_scrape fromisoformatModel isoformatModel nowModel (some "NL")
      [("NL", "2024-05-31T00:00:00+00:00")] =
      Except.ok (false, "Scraped recently at 2024-05-31T00:00:00+00:00.") := by
  have h := (C1_decision_order fromisoformatModel isoformatModel nowModel rfl
      (some "NL") [("NL", "2024-05-31T00:00:00+00:00")]).2.2.2.1 "NL"
      "2024-05-31T00:00:00+00:00" { seconds := 1717113600, aware := true }
      rfl (by decide) (by decide) (by decide) (by decide) rfl (by decide)
  exact h.trans (by decide)

/-! ## C5: the end-to-end scenario -/

/-- C5 counterexample: in the end-to-end scenario the enriched document's
country field is the href-derived normalized name `x`, not the directory
label `X` the claim demands: the code passes
`normalize_country_name(raw_country_from_href or country_label)` and the
href-derived raw name `x` is truthy, so the label is never consulted. -/
theorem C5_counterexample :
    (mainRun demoEnv false [("/x_swift_codes.html", "X")] [] 2).data_file =
      some [demoOutDoc] ∧
    demoOutDoc.country = "x" ∧ demoOutDoc.country ≠ "X" := by
  refine ⟨by decide, rfl, by decide⟩

/-- C5 (amended): the end-to-end scenario produces exactly one enriched
document whose country field is the href-derived name `x` (all other fields
as the claim states them), and the persisted ledger maps `XX` to the run
timestamp. -/
theorem C5_end_to_end :
    mainRun demoEnv false [("/x_swift_codes.html", "X")] [] 2 =
      { data_file := some [demoOutDoc],
        freshness_file := [("XX", "2024-06-01T00:00:00+00:00")] } := by
  decide

/-! ## C6: end-of-run persistence -/

theorem dictGet_pres_of_set (d : List (String × String)) (k v code ts : String)
    (h : dictGet d k = some v) :
    dictGet (dictSet d code ts) k = some v ∨ dictGet (dictSet d code ts) k = some ts := by
  rw [dictGet_dictSet]
  by_cases hk : k = code
  · rw [if_pos hk]; exact Or.inr rfl
  · rw [if_neg hk]; exact Or.inl h

theorem scrape_country_freshness_pres (E : Env) (coll : Bool) (href label : String)
    (fuel : Nat) (st : ScrapeState) (k v : String)
    (h : dictGet st.freshness k = some v) :
    dictGet (scrape_country E coll href label fuel st).1.freshness k = some v ∨
    dictGet (scrape_country E coll href label fuel st).1.freshness k =
      some (E.fmtIso E.now) := by
  simp only [scrape_country]
  split
  · exact Or.inl h
  · split
    · exact Or.inl h
    · split
      · dsimp only
        split
        · exact Or.inl h
        · split
          · exact Or.inl h
          · exact dictGet_pres_of_set _ _ _ _ _ h
      · exact Or.inl h

theorem mainLoop_freshness_pres (E : Env) (coll : Bool) (fuel : Nat)
    (links : List (String × String)) :
    ∀ (st : ScrapeState) (k v : String), dictGet st.freshness k = some v →
    dictGet (mainLoop E coll fuel links st).freshness k = some v ∨
    dictGet (mainLoop E coll fuel links st).freshness k = some (E.fmtIso E.now) := by
  induction links with
  | nil => intro st k v h; exact Or.inl h
  | cons hd tl ih =>
    intro st k v h
    obtain ⟨href, label⟩ := hd
    simp only [mainLoop]
    rcases scrape_country_freshness_pres E coll href label fuel st k v h with h1 | h1
    · exact ih _ k v h1
    · rcases ih _ k (E.fmtIso E.now) h1 with h2 | h2
      · exact Or.inr h2
      · exact Or.inr h2

/-- C6: at run end the accumulated result set is written to the data file
exactly when it is non-empty, and the freshness ledger is persisted
unconditionally as the whole mapping: every entry loaded at run start is
still present, either verbatim (untouched partitions) or overwritten with
the run timestamp; with zero partitions the ledger file is the loaded
mapping itself. -/
theorem C6_run_end (E : Env) (coll : Bool) (links : List (String × String))
    (fr : List (String × String)) (fuel : Nat) :
    (∀ ds, (mainRun E coll links fr fuel).data_file = some ds → ds ≠ []) ∧
    ((mainRun E coll links fr fuel).data_file = none →
      (mainLoop E coll fuel links { freshness := fr, all_docs := [] }).all_docs = []) ∧
    ((mainRun E coll links fr fuel).freshness_file =
      (mainLoop E coll fuel links { freshness := fr, all_docs := [] }).freshness) ∧
    (∀ k v, dictGet fr k = some v →
      dictGet (mainRun E coll links fr fuel).freshness_file k = some v ∨
      dictGet (mainRun E coll links fr fuel).freshness_file k = some (E.fmtIso E.now)) ∧
    (mainRun E coll [] fr fuel).freshness_file = fr := by
  refine ⟨?_, ?_, rfl, ?_, rfl⟩
  · intro ds hds
    simp only [mainRun] at hds
    split at hds
    · exact absurd hds (by simp)
    · rename_i hne
      obtain rfl : _ = ds := Option.some.inj hds
      simpa [List.isEmpty_iff] using hne
  · intro hnone
    simp only [mainRun] at hnone
    split at hnone
    · rename_i he
      simpa [List.isEmpty_iff] using he
    · exact absurd hnone (by simp)
  · intro k v h
    simp only [mainRun]
    exact mainLoop_freshness_pres E coll fuel links _ k v h

/-- C6 witness: a ledger entry loaded at run start survives a run with zero
partitions. -/
theorem C6_witness :
    dictGet (mainRun demoEnv false [] [("AA", "t0")] 1).freshness_file "AA" = some "t0" ∨
    dictGet (mainRun demoEnv false [] [("AA", "t0")] 1).freshness_file "AA" =
      some (demoEnv.fmtIso demoEnv.now) :=
  (C6_run_end demoEnv false [] [("AA", "t0")] 1).2.2.2.1 "AA" "t0" (by decide)

/-! ## C10: timestamp stamping of accumulated documents -/

theorem mem_save_enriched (b : Bool) (now : PyDateTime) (iso2 iso3 : Option String)
    (cn path : String) (rows : List Row) (d : Doc)
    (hd : d ∈ (save_documents_mongo b now (rows.map (enrichRow iso2 iso3 cn path))).1) :
    d.createdAt = some now ∧ d.updatedAt = some now := by
  unfold save_documents_mongo at hd
  split at hd
  · rename_i he
    rw [List.isEmpty_iff] at he
    rw [he] at hd
    exact absurd hd (List.not_mem_nil d)
  · obtain ⟨d0, _, rfl⟩ := List.mem_map.1 hd
    obtain ⟨r, _, rfl⟩ := List.mem_map.1 (by assumption : d0 ∈ rows.map (enrichRow iso2 iso3 cn path))
    exact ⟨rfl, rfl⟩

theorem mem_enriched (iso2 iso3 : Option String) (cn path : String)
    (rows : List Row) (d : Doc) (hd : d ∈ rows.map (enrichRow iso2 iso3 cn path)) :
    d.createdAt = none ∧ d.updatedAt = none := by
  obtain ⟨r, _, rfl⟩ := List.mem_map.1 hd
  exact ⟨rfl, rfl⟩

theorem scrapePages_stamped (E : Env) (coll : Bool) (iso2 iso3 : Option String)
    (cn : String) :
    ∀ (fuel : Nat) (cur : Option String) (acc : List Doc) (trace : List String),
    (∀ d ∈ acc, stampedFor coll E.now d) →
    ∀ d ∈ (scrapePages E coll iso2 iso3 cn fuel cur acc trace).1,
      stampedFor coll E.now d := by
  intro fuel
  induction fuel with
  | zero =>
    intro cur acc trace hacc d hd
    match cur with
    | none => exact hacc d hd
    | some path =>
      simp only [scrapePages] at hd
      split at hd
      · exact hacc d hd
      · exact hacc d hd
  | succ n ih =>
    intro cur acc trace hacc d hd
    match cur with
    | none => exact hacc d hd
    | some path =>
      simp only [scrapePages] at hd
      split at hd
      · exact hacc d hd
      · split at hd
        · exact hacc d hd
        · refine ih _ _ _ ?_ d hd
          intro d1 hd1
          rcases List.mem_append.1 hd1 with h1 | h1
          · exact hacc d1 h1
          · by_cases hc : coll
            · subst hc
              rw [if_pos rfl] at h1
              have := mem_save_enriched (E.insertOk path) E.now iso2 iso3 cn path _ d1 h1
              simpa [stampedFor] using this
            · rw [if_neg hc] at h1
              cases coll
              · have := mem_enriched iso2 iso3 cn path _ d1 h1
                simpa [stampedFor] using this
              · exact absurd rfl hc

theorem scrape_country_stamped (E : Env) (coll : Bool) (href label : String)
    (fuel : Nat) (st : ScrapeState)
    (h : ∀ d ∈ st.all_docs, stampedFor coll E.now d) :
    ∀ d ∈ (scrape_country E coll href label fuel st).1.all_docs,
      stampedFor coll E.now d := by
  simp only [scrape_country]
  split
  · exact h
  · split
    · exact h
    · split
      · dsimp only
        exact scrapePages_stamped E coll _ _ _ fuel _ _ _ h
      · dsimp only
        exact scrapePages_stamped E coll _ _ _ fuel _ _ _ h

theorem mainLoop_stamped (E : Env) (coll : Bool) (fuel : Nat)
    (links : List (String × String)) :
    ∀ (st : ScrapeState), (∀ d ∈ st.all_docs, stampedFor coll E.now d) →
    ∀ d ∈ (mainLoop E coll fuel links st).all_docs, stampedFor coll E.now d := by
  induction links with
  | nil => intro st h; exact h
  | cons hd tl ih =>
    intro st h
    obtain ⟨href, label⟩ := hd
    simp only [mainLoop]
    exact ih _ (scrape_country_stamped E coll href label fuel st h)

/-- C10: the Mongo writer stamps each batch in place before the insert
(creation timestamp only if absent, update timestamp always), independently
of whether the insert succeeds, and the very same stamped documents are
appended to the accumulator; hence with a configured store every document in
the file-sink output carries both timestamps (equal to the run clock), and
with no store configured none does. -/
theorem C10_store_stamps (E : Env) (links : List (String × String))
    (fr : List (String × String)) (fuel : Nat) :
    (∀ ds, (mainRun E true links fr fuel).data_file = some ds →
      ∀ d ∈ ds, d.createdAt = some E.now ∧ d.updatedAt = some E.now) ∧
    (∀ ds, (mainRun E false links fr fuel).data_file = some ds →
      ∀ d ∈ ds, d.createdAt = none ∧ d.updatedAt = none) ∧
    (∀ (b : Bool) (now : PyDateTime) (docs : List Doc),
      (save_documents_mongo b now docs).1 = (save_documents_mongo true now docs).1) := by
  refine ⟨?_, ?_, ?_⟩
  · intro ds hds d hd
    simp only [mainRun] at hds
    split at hds
    · exact absurd hds (by simp)
    · obtain rfl : _ = ds := Option.some.inj hds
      have := mainLoop_stamped E true fuel links _ (by intro d1 hd1; cases hd1) d hd
      simpa [stampedFor] using this
  · intro ds hds d hd
    simp only [mainRun] at hds
    split at hds
    · exact absurd hds (by simp)
    · obtain rfl : _ = ds := Option.some.inj hds
      have := mainLoop_stamped E false fuel links _ (by intro d1 hd1; cases hd1) d hd
      simpa [stampedFor] using this
  · intro b now docs
    unfold save_documents_mongo
    split
    · rfl
    · rfl

/-- C10 witness: the end-to-end run with a configured store outputs the
stamped document, whose timestamps the theorem pins to the run clock. -/
theorem C10_witness :
    demoOutDocM.createdAt = some demoEnv.now ∧ demoOutDocM.updatedAt = some demoEnv.now :=
  (C10_store_stamps demoEnv [("/x_swift_codes.html", "X")] [] 2).1
    [demoOutDocM] (by decide) demoOutDocM (by decide)

/-! ## C3: store-insert failures never block the file sink -/

theorem save_documents_mongo_fst (b b' : Bool) (now : PyDateTime) (docs : List Doc) :
    (save_documents_mongo b now docs).1 = (save_documents_mongo b' now docs).1 := by
  unfold save_documents_mongo
  split
  · rfl
  · rfl

theorem saved_fst_indep (b b' : Bool) (coll : Bool) (now : PyDateTime) (docs : List Doc) :
    (if coll then save_documents_mongo b now docs else (docs, none)).1 =
    (if coll then save_documents_mongo b' now docs else (docs, none)).1 := by
  cases coll
  · rfl
  · exact save_documents_mongo_fst b b' now docs

theorem scrapePages_insert_indep (E1 E2 : Env) (hfetch : E1.fetchPage = E2.fetchPage)
    (hnow : E1.now = E2.now) (coll : Bool) (iso2 iso3 : Option String) (cn : String) :
    ∀ (fuel : Nat) (cur : Option String) (acc : List Doc) (trace : List String),
    scrapePages E1 coll iso2 iso3 cn fuel cur acc trace =
    scrapePages E2 coll iso2 iso3 cn fuel cur acc trace := by
  intro fuel
  induction fuel with
  | zero =>
    intro cur acc trace
    match cur with
    | none => rfl
    | some path => simp only [scrapePages]
  | succ n ih =>
    intro cur acc trace
    match cur with
    | none => rfl
    | some path =>
      simp only [scrapePages, hfetch, hnow]
      cases hf : E2.fetchPage path with
      | error e => simp only []
      | ok pr =>
        obtain ⟨rows, next⟩ := pr
        simp only []
        rw [saved_fst_indep (E1.insertOk path) (E2.insertOk path)]
        split
        · rfl
        · exact ih next _ _

theorem scrape_country_insert_indep (E1 E2 : Env) (hfetch : E1.fetchPage = E2.fetchPage)
    (hsvc : E1.svc = E2.svc) (hparse : E1.parseIso = E2.parseIso)
    (hfmt : E1.fmtIso = E2.fmtIso) (hnow : E1.now = E2.now) (coll : Bool)
    (href label : String) (fuel : Nat) (st : ScrapeState) :
    scrape_country E1 coll href label fuel st =
    scrape_country E2 coll href label fuel st := by
  simp only [scrape_country, hsvc, hparse, hfmt, hnow,
    scrapePages_insert_indep E1 E2 hfetch hnow coll]

theorem mainLoop_insert_indep (E1 E2 : Env) (hfetch : E1.fetchPage = E2.fetchPage)
    (hsvc : E1.svc = E2.svc) (hparse : E1.parseIso = E2.parseIso)
    (hfmt : E1.fmtIso = E2.fmtIso) (hnow : E1.now = E2.now) (coll : Bool)
    (fuel : Nat) (links : List (String × String)) :
    ∀ st : ScrapeState, mainLoop E1 coll fuel links st = mainLoop E2 coll fuel links st := by
  induction links with
  | nil => intro st; rfl
  | cons hd tl ih =>
    intro st
    obtain ⟨href, label⟩ := hd
    simp only [mainLoop,
      scrape_country_insert_indep E1 E2 hfetch hsvc hparse hfmt hnow coll href label fuel st]
    exact ih _

/-- C3: a failing store insert is caught and the same (stamped) batch is
still appended to the in-memory accumulator and the walk continues; more
generally, two environments that agree on everything except the outcome of
store inserts produce identical run results, so an insert failure never
removes or blocks documents destined for the file sink. -/
theorem C3_insert_failure_isolated :
    (∀ (E : Env) (iso2 iso3 : Option String) (cn path : String) (rows : List Row)
      (next : Option String) (fuel : Nat) (acc : List Doc) (trace : List String),
      (path == "") = false → E.fetchPage path = Except.ok (rows, next) →
      E.insertOk path = false →
      scrapePages E true iso2 iso3 cn (fuel + 1) (some path) acc trace =
        scrapePages E true iso2 iso3 cn fuel next
          (acc ++ (save_documents_mongo false E.now
            (rows.map (enrichRow iso2 iso3 cn path))).1)
          (trace ++ [path])) ∧
    (∀ E1 E2 : Env, E1.fetchPage = E2.fetchPage → E1.svc = E2.svc →
      E1.parseIso = E2.parseIso → E1.fmtIso = E2.fmtIso → E1.now = E2.now →
      ∀ (coll : Bool) (links : List (String × String))
        (fr : List (String × String)) (fuel : Nat),
        mainRun E1 coll links fr fuel = mainRun E2 coll links fr fuel) := by
  constructor
  · intro E iso2 iso3 cn path rows next fuel acc trace hp hf hins
    simp only [scrapePages, hp, hf, hins, Bool.false_eq_true, if_false, if_true]
  · intro E1 E2 hfetch hsvc hparse hfmt hnow coll links fr fuel
    simp only [mainRun,
      mainLoop_insert_indep E1 E2 hfetch hsvc hparse hfmt hnow coll fuel links]

/-- C3 witness: with every insert failing, the first chain page's stamped
batch is still appended and the whole run result equals the run with
succeeding inserts. -/
theorem C3_witness :
    scrapePages chainEnvNoMongo true (some "ZZ") (some "ZZZ") "zland" 3
        (some "/zland_swift_codes.html") [] [] =
      scrapePages chainEnvNoMongo true (some "ZZ") (some "ZZZ") "zland" 2 (some "/p2")
        ([] ++ (save_documents_mongo false chainEnvNoMongo.now
          ([chRow 1].map (enrichRow (some "ZZ") (some "ZZZ") "zland"
            "/zland_swift_codes.html"))).1)
        ([] ++ ["/zland_swift_codes.html"]) ∧
    mainRun chainEnvNoMongo true [("/zland_swift_codes.html", "Z")] [] 4 =
      mainRun chainEnvOk true [("/zland_swift_codes.html", "Z")] [] 4 := by
  constructor
  · exact C3_insert_failure_isolated.1 chainEnvNoMongo (some "ZZ") (some "ZZZ") "zland"
      "/zland_swift_codes.html" [chRow 1] (some "/p2") 2 [] []
      (by decide) (by decide) (by decide)
  · exact C3_insert_failure_isolated.2 chainEnvNoMongo chainEnvOk rfl rfl rfl rfl rfl
      true [("/zland_swift_codes.html", "Z")] [] 4

/-! ## C4: pagination over a finite chain -/

theorem saved_fst_eq_pageDocs (E : Env) (coll : Bool) (iso2 iso3 : Option String)
    (cn path : String) (rows : List Row) :
    (if coll then save_documents_mongo (E.insertOk path) E.now
        (rows.map (enrichRow iso2 iso3 cn path))
      else (rows.map (enrichRow iso2 iso3 cn path), none)).1 =
    pageDocs E coll iso2 iso3 cn path rows := by
  cases coll
  · rfl
  · rfl

/-- C4: over a finite page chain whose last page has no next pointer, the
pagination loop fetches exactly the pages of the chain in order starting at
the start page (the trace is the chain's page list, so nothing beyond the
last page is fetched), accumulates exactly the concatenation of each page's
documents in page order, and terminates normally for every sufficient step
budget. -/
theorem C4_pagination_walk (E : Env) (coll : Bool) (iso2 iso3 : Option String)
    (cn : String) :
    ∀ (ps : List (String × List Row)), GoodChain E ps →
    ∀ (fuel : Nat), ps.length ≤ fuel → ∀ (acc : List Doc) (trace : List String),
    scrapePages E coll iso2 iso3 cn fuel (chainNext ps) acc trace =
      (acc ++ chainDocs E coll iso2 iso3 cn ps, trace ++ ps.map Prod.fst,
       LoopResult.done) := by
  intro ps
  induction ps with
  | nil =>
    intro _ fuel _ acc trace
    simp [scrapePages, chainNext, chainDocs]
  | cons hd tl ih =>
    obtain ⟨p, rows⟩ := hd
    intro hchain fuel hfuel acc trace
    obtain ⟨hp, hf, htl⟩ := hchain
    cases fuel with
    | zero => simp at hfuel
    | succ fuel' =>
      rw [show chainNext ((p, rows) :: tl) = some p from rfl]
      simp only [scrapePages, hp, hf, Bool.false_eq_true, if_false]
      rw [saved_fst_eq_pageDocs]
      rw [ih htl fuel' (by simpa using hfuel) _ _]
      simp [chainDocs, List.append_assoc]

/-- C4 witness: the walk over the synthetic three-page chain with step budget
equal to the chain length. -/
theorem C4_witness :
    scrapePages chainEnvOk false (some "ZZ") (some "ZZZ") "zland" 3
        (some "/zland_swift_codes.html") [] [] =
      ([] ++ chainDocs chainEnvOk false (some "ZZ") (some "ZZZ") "zland" chain3,
       [] ++ chain3.map Prod.fst, LoopResult.done) := by
  have hchain : GoodChain chainEnvOk chain3 := by
    simp only [chain3, GoodChain, chainNext]
    exact ⟨by decide, by decide, by decide, by decide, by decide, by decide, trivial⟩
  exact C4_pagination_walk chainEnvOk false (some "ZZ") (some "ZZZ") "zland"
    chain3 hchain 3 (by decide) [] []

/-! ## C2: a page failure aborts only the rest of its partition -/

theorem scrapePages_broken (E : Env) (coll : Bool) (iso2 iso3 : Option String)
    (cn : String) (e : PyErr) :
    ∀ (ps : List (String × List Row)) (bad : String), BrokenChain E e ps bad →
    ∀ (fuel : Nat), ps.length + 1 ≤ fuel → ∀ (acc : List Doc) (trace : List String),
    scrapePages E coll iso2 iso3 cn fuel (chainNextB ps bad) acc trace =
      (acc ++ chainDocs E coll iso2 iso3 cn ps,
       trace ++ ps.map Prod.fst ++ [bad], LoopResult.error e) := by
  intro ps
  induction ps with
  | nil =>
    intro bad hchain fuel hfuel acc trace
    obtain ⟨hbad, herr⟩ := hchain
    cases fuel with
    | zero => simp at hfuel
    | succ fuel' =>
      simp [scrapePages, chainNextB, hbad, herr, chainDocs]
  | cons hd tl ih =>
    obtain ⟨p, rows⟩ := hd
    intro bad hchain fuel hfuel acc trace
    obtain ⟨hp, hf, htl⟩ := hchain
    cases fuel with
    | zero => simp at hfuel
    | succ fuel' =>
      rw [show chainNextB ((p, rows) :: tl) bad = some p from rfl]
      simp only [scrapePages, hp, hf, Bool.false_eq_true, if_false]
      rw [saved_fst_eq_pageDocs]
      rw [ih bad htl fuel' (by simp at hfuel; omega) _ _]
      simp [chainDocs, List.append_assoc]

/-- C2: when the fetch of page k of a partition's chain raises, the documents
of pages 1..k-1 stay in the accumulator, the trace shows that no page past k
was fetched, the partition reports the error (caught by the per-country
boundary, so the main loop continues with the next partition on the mutated
state), and the partition's freshness entry is not added or updated. -/
theorem C2_partition_failure (E : Env) (coll : Bool) (href label : String)
    (fuel : Nat) (st : ScrapeState) (ps : List (String × List Row)) (bad : String)
    (e : PyErr) (reason cn : String) (iso2 iso3 mn : Option String)
    (hcn : cn = normalize_country_name
      (if raw_from_href href == "" then label else raw_from_href href))
    (hres : lookup_iso E.svc cn = (iso2, iso3, mn))
    (hss : should_scrape E.parseIso E.fmtIso E.now iso2 st.freshness =
      Except.ok (true, reason))
    (hstart : chainNextB ps bad = some href)
    (hchain : BrokenChain E e ps bad) (hfuel : ps.length + 1 ≤ fuel)
    (rest : List (String × String)) :
    scrapePages E coll iso2 iso3 cn fuel (some href) st.all_docs [] =
      (st.all_docs ++ chainDocs E coll iso2 iso3 cn ps,
       ps.map Prod.fst ++ [bad], LoopResult.error e) ∧
    scrape_country E coll href label fuel st =
      ({ freshness := st.freshness,
         all_docs := st.all_docs ++ chainDocs E coll iso2 iso3 cn ps },
       LoopResult.error e) ∧
    mainLoop E coll fuel ((href, label) :: rest) st =
      mainLoop E coll fuel rest
        { freshness := st.freshness,
          all_docs := st.all_docs ++ chainDocs E coll iso2 iso3 cn ps } := by
  have hwalk := scrapePages_broken E coll iso2 iso3 cn e ps bad hchain fuel hfuel
    st.all_docs []
  rw [hstart] at hwalk
  have hwalk2 : scrapePages E coll iso2 iso3 cn fuel (some href) st.all_docs [] =
      (st.all_docs ++ chainDocs E coll iso2 iso3 cn ps,
       ps.map Prod.fst ++ [bad], LoopResult.error e) := by simpa using hwalk
  have hsc : scrape_country E coll href label fuel st =
      ({ freshness := st.freshness,
         all_docs := st.all_docs ++ chainDocs E coll iso2 iso3 cn ps },
       LoopResult.error e) := by
    simp only [scrape_country, ← hcn, hres, hss, hwalk2, Bool.not_true,
      Bool.false_eq_true, if_false]
  exact ⟨hwalk2, hsc, by simp only [mainLoop, hsc]⟩

/-- C2 witness: the broken three-page chain keeps page 1's documents, fetches
nothing past page 2, reports the error and leaves the ledger without an
entry for the partition's resolved code. -/
theorem C2_witness :
    scrapePages chainEnvBad false (some "ZZ") (some "ZZZ") "zland" 3
        (some "/zland_swift_codes.html") [] [] =
      ([] ++ chainDocs chainEnvBad false (some "ZZ") (some "ZZZ") "zland"
         [("/zland_swift_codes.html", [chRow 1])],
       ["/zland_swift_codes.html", "/p2"], LoopResult.error (PyErr.other "boom")) ∧
    scrape_country chainEnvBad false "/zland_swift_codes.html" "Z" 3
        { freshness := [], all_docs := [] } =
      ({ freshness := [],
         all_docs := [] ++ chainDocs chainEnvBad false (some "ZZ") (some "ZZZ") "zland"
           [("/zland_swift_codes.html", [chRow 1])] },
       LoopResult.error (PyErr.other "boom")) := by
  have hchain : BrokenChain chainEnvBad (PyErr.other "boom")
      [("/zland_swift_codes.html", [chRow 1])] "/p2" := by
    simp only [BrokenChain, chainNextB]
    exact ⟨by decide, by decide, by decide, by decide⟩
  have h := C2_partition_failure chainEnvBad false "/zland_swift_codes.html" "Z" 3
    { freshness := [], all_docs := [] } [("/zland_swift_codes.html", [chRow 1])] "/p2"
    (PyErr.other "boom") "No previous scrape recorded." "zland"
    (some "ZZ") (some "ZZZ") (some "Zland")
    (by decide) (by decide) (by decide) rfl hchain (by decide) []
  refine ⟨?_, h.2.1⟩
  have h1 := h.1
  simpa using h1

/-! ## C8: lemmas about the normalizer -/

theorem dropWhile_head?_false (p : Char → Bool) :
    ∀ (l : List Char) (c : Char), (l.dropWhile p).head? = some c → p c = false := by
  intro l
  induction l with
  | nil => intro c hc; simp at hc
  | cons a t ih =>
    intro c hc
    rw [List.dropWhile_cons] at hc
    split at hc
    · exact ih c hc
    · rename_i ha
      obtain rfl : a = c := by simpa using hc
      simpa using ha

theorem dropWhile_getLast?_of_ne_nil (p : Char → Bool) :
    ∀ (l : List Char), l.dropWhile p ≠ [] →
    (l.dropWhile p).getLast? = l.getLast? := by
  intro l
  induction l with
  | nil => intro h; simp at h
  | cons a t ih =>
    intro h
    rw [List.dropWhile_cons] at h ⊢
    split
    · rename_i ha
      rw [if_pos ha] at h
      have ht : t ≠ [] := by
        intro he; rw [he] at h; simp at h
      obtain ⟨b, t', rfl⟩ := List.exists_cons_of_ne_nil ht
      rw [List.getLast?_cons_cons]
      exact ih h
    · rfl

theorem mem_of_mem_dropWhile (p : Char → Bool) (l : List Char) (c : Char)
    (h : c ∈ l.dropWhile p) : c ∈ l :=
  (List.dropWhile_sublist p).mem h

theorem mem_of_mem_pyStrip (p : Char → Bool) (l : List Char) (c : Char)
    (h : c ∈ pyStrip p l) : c ∈ l := by
  unfold pyStrip at h
  rw [List.mem_reverse] at h
  have h1 := mem_of_mem_dropWhile p _ c h
  rw [List.mem_reverse] at h1
  exact mem_of_mem_dropWhile p l c h1

theorem pyStrip_head?_false (p : Char → Bool) (l : List Char) (c : Char)
    (h : (pyStrip p l).head? = some c) : p c = false := by
  unfold pyStrip at h
  rw [List.head?_reverse] at h
  have hne : (l.dropWhile p).reverse.dropWhile p ≠ [] := by
    intro he; rw [he] at h; simp at h
  rw [dropWhile_getLast?_of_ne_nil p _ hne, List.getLast?_reverse] at h
  exact dropWhile_head?_false p _ c h

theorem pyStrip_getLast?_false (p : Char → Bool) (l : List Char) (c : Char)
    (h : (pyStrip p l).getLast? = some c) : p c = false := by
  unfold pyStrip at h
  rw [List.getLast?_reverse] at h
  exact dropWhile_head?_false p _ c h

theorem dropWhile_eq_self_of_head (p : Char → Bool) (l : List Char) (c : Char)
    (hh : l.head? = some c) (hc : p c = false) : l.dropWhile p = l := by
  match l, hh with
  | a :: t, hh =>
    obtain rfl : a = c := by simpa using hh
    rw [List.dropWhile_cons, if_neg (by simp [hc])]

theorem pyStrip_eq_self (p : Char → Bool) (l : List Char) (c d : Char)
    (hh : l.head? = some c) (hc : p c = false)
    (hl : l.getLast? = some d) (hd : p d = false) : pyStrip p l = l := by
  unfold pyStrip
  rw [dropWhile_eq_self_of_head p l c hh hc]
  rw [dropWhile_eq_self_of_head p l.reverse d (by rwa [List.head?_reverse]) hd]
  exact List.reverse_reverse l

theorem pyReplaceChar_eq_self (a b : Char) (l : List Char)
    (h : ∀ c ∈ l, c ≠ a) : pyReplaceChar a b l = l := by
  induction l with
  | nil => rfl
  | cons x t ih =>
    unfold pyReplaceChar
    rw [List.map_cons, if_neg (by simpa using h x (List.mem_cons_self x t))]
    exact congrArg (x :: ·) (ih fun c hc => h c (List.mem_cons_of_mem x hc))

theorem mem_pyReplaceChar (a b : Char) (l : List Char) (c : Char)
    (h : c ∈ pyReplaceChar a b l) : c = b ∨ (c ∈ l ∧ c ≠ a) := by
  unfold pyReplaceChar at h
  obtain ⟨d, hd, hdc⟩ := List.mem_map.1 h
  by_cases hda : d = a
  · left; rw [← hdc, if_pos (by simpa using hda)]
  · right
    rw [if_neg (by simpa using hda)] at hdc
    exact ⟨hdc ▸ hd, hdc ▸ hda⟩

theorem pyReplaceChar_head? (a b : Char) (l : List Char) :
    (pyReplaceChar a b l).head? =
      l.head?.map fun c => if c == a then b else c := by
  unfold pyReplaceChar
  exact List.head?_map _ l

theorem pyReplaceChar_getLast? (a b : Char) (l : List Char) :
    (pyReplaceChar a b l).getLast? =
      l.getLast?.map fun c => if c == a then b else c := by
  unfold pyReplaceChar
  exact List.getLast?_map _ l

theorem mem_of_mem_splitOnP (p : Char → Bool) :
    ∀ (l : List Char) (w : List Char), w ∈ l.splitOnP p →
    ∀ c ∈ w, c ∈ l ∧ p c = false := by
  intro l
  induction l with
  | nil =>
    intro w hw c hc
    rw [List.splitOnP_nil] at hw
    obtain rfl : w = [] := by simpa using hw
    simp at hc
  | cons a t ih =>
    intro w hw c hc
    rw [List.splitOnP_cons] at hw
    split at hw
    · rcases List.mem_cons.1 hw with rfl | hw2
      · simp at hc
      · obtain ⟨h1, h2⟩ := ih w hw2 c hc
        exact ⟨List.mem_cons_of_mem a h1, h2⟩
    · rename_i ha
      cases hsp : t.splitOnP p with
      | nil => exact absurd hsp (List.splitOnP_ne_nil p t)
      | cons s ss =>
        rw [hsp] at hw
        simp only [List.modifyHead] at hw
        rcases List.mem_cons.1 hw with rfl | hw2
        · rcases List.mem_cons.1 hc with rfl | hc2
          · exact ⟨List.mem_cons_self c t, by simpa using ha⟩
          · obtain ⟨h1, h2⟩ := ih s (by rw [hsp]; exact List.mem_cons_self s ss) c hc2
            exact ⟨List.mem_cons_of_mem a h1, h2⟩
        · obtain ⟨h1, h2⟩ := ih w (by rw [hsp]; exact List.mem_cons_of_mem s hw2) c hc
          exact ⟨List.mem_cons_of_mem a h1, h2⟩

theorem splitOnP_joinSp :
    ∀ (ws : List (List Char)), ws ≠ [] →
    (∀ w ∈ ws, ∀ c ∈ w, pyWsChar c = false) →
    (joinSp ws).splitOnP pyWsChar = ws := by
  intro ws
  induction ws with
  | nil => intro h; exact absurd rfl h
  | cons w ws2 ih =>
    intro _ hws
    cases ws2 with
    | nil =>
      exact List.splitOnP_eq_single _ _
        (by intro x hx; simp [hws w (List.mem_cons_self w []) x hx])
    | cons w2 ws3 =>
      show (w ++ ' ' :: joinSp (w2 :: ws3)).splitOnP pyWsChar = w :: w2 :: ws3
      rw [List.splitOnP_first _ _
        (by intro x hx; simp [hws w (List.mem_cons_self w _) x hx]) ' ' (by decide)]
      rw [ih (by simp) (fun u hu c hc => hws u (List.mem_cons_of_mem w hu) c hc)]

theorem pySplitWs_joinSp (ws : List (List Char))
    (h : ∀ w ∈ ws, w ≠ [] ∧ ∀ c ∈ w, pyWsChar c = false) :
    pySplitWs (joinSp ws) = ws := by
  cases ws with
  | nil => rfl
  | cons w ws2 =>
    unfold pySplitWs
    rw [splitOnP_joinSp (w :: ws2) (by simp) (fun u hu c hc => (h u hu).2 c hc)]
    refine List.filter_eq_self.2 ?_
    intro a ha
    simpa [List.isEmpty_iff] using (h a ha).1

theorem splitOnP_cons_head (p : Char → Bool) (c : Char) (t : List Char)
    (hc : p c = false) :
    ∃ w rest, (c :: t).splitOnP p = (c :: w) :: rest := by
  rw [List.splitOnP_cons, if_neg (by simp [hc])]
  cases hsp : t.splitOnP p with
  | nil => exact absurd hsp (List.splitOnP_ne_nil p t)
  | cons s ss => exact ⟨s, ss, rfl⟩

theorem modLast_concat (f : List Char → List Char) :
    ∀ (xs : List (List Char)) (x : List Char),
    modLast f (xs ++ [x]) = xs ++ [f x] := by
  intro xs
  induction xs with
  | nil => intro x; rfl
  | cons a t ih =>
    intro x
    rw [List.cons_append]
    cases t with
    | nil => rfl
    | cons b t2 =>
      show a :: modLast f ((b :: t2) ++ [x]) = a :: ((b :: t2) ++ [f x])
      rw [ih x]

theorem splitOnP_concat (p : Char → Bool) (c : Char) (hc : p c = false) :
    ∀ (l : List Char),
    (l ++ [c]).splitOnP p = modLast (· ++ [c]) (l.splitOnP p) := by
  intro l
  induction l with
  | nil =>
    rw [List.nil_append, List.splitOnP_cons, if_neg (by simp [hc]), List.splitOnP_nil]
    rfl
  | cons a t ih =>
    rw [List.cons_append, List.splitOnP_cons, List.splitOnP_cons, ih]
    by_cases hpa : p a = true
    · rw [if_pos hpa, if_pos hpa]
      cases hsp : t.splitOnP p with
      | nil => exact absurd hsp (List.splitOnP_ne_nil p t)
      | cons s ss => rfl
    · rw [if_neg hpa, if_neg hpa]
      cases hsp : t.splitOnP p with
      | nil => exact absurd hsp (List.splitOnP_ne_nil p t)
      | cons s ss =>
        cases ss with
        | nil => rfl
        | cons s2 ss2 => rfl

theorem joinSp_cons_of_ne_nil (a : List Char) (r : List (List Char)) (hr : r ≠ []) :
    joinSp (a :: r) = a ++ ' ' :: joinSp r := by
  obtain ⟨y, ys, rfl⟩ := List.exists_cons_of_ne_nil hr
  rfl

theorem joinSp_concat_ne_nil (ws : List (List Char)) (w : List Char) (hw : w ≠ []) :
    joinSp (ws ++ [w]) ≠ [] := by
  cases ws with
  | nil => simpa [joinSp] using hw
  | cons a t =>
    rw [List.cons_append, joinSp_cons_of_ne_nil a (t ++ [w]) (by simp)]
    simp

theorem joinSp_head? (w : List Char) (ws : List (List Char)) (hw : w ≠ []) :
    (joinSp (w :: ws)).head? = w.head? := by
  cases ws with
  | nil => rfl
  | cons w2 ws2 =>
    rw [joinSp_cons_of_ne_nil w _ (by simp)]
    exact List.head?_append_of_ne_nil w hw

theorem joinSp_getLast? :
    ∀ (ws : List (List Char)) (w : List Char), w ≠ [] →
    (joinSp (ws ++ [w])).getLast? = w.getLast? := by
  intro ws
  induction ws with
  | nil => intro w _; rfl
  | cons a t ih =>
    intro w hw
    rw [List.cons_append, joinSp_cons_of_ne_nil a (t ++ [w]) (by simp)]
    rw [List.getLast?_append_of_ne_nil a (by simp)]
    show ([' '] ++ joinSp (t ++ [w])).getLast? = w.getLast?
    rw [List.getLast?_append_of_ne_nil [' '] (joinSp_concat_ne_nil t w hw)]
    exact ih w hw

theorem mem_joinSp :
    ∀ (ws : List (List Char)) (c : Char), c ∈ joinSp ws →
    c = ' ' ∨ ∃ w ∈ ws, c ∈ w := by
  intro ws
  induction ws with
  | nil => intro c hc; simp [joinSp] at hc
  | cons w ws2 ih =>
    intro c hc
    cases ws2 with
    | nil => exact Or.inr ⟨w, List.mem_cons_self w [], hc⟩
    | cons w2 ws3 =>
      rw [joinSp_cons_of_ne_nil w _ (by simp)] at hc
      rcases List.mem_append.1 hc with h | h
      · exact Or.inr ⟨w, List.mem_cons_self w _, h⟩
      · rcases List.mem_cons.1 h with rfl | h2
        · exact Or.inl rfl
        · rcases ih c h2 with h3 | ⟨w3, hw3, hc3⟩
          · exact Or.inl h3
          · exact Or.inr ⟨w3, List.mem_cons_of_mem w hw3, hc3⟩

theorem mem_of_getLast?Char (l : List Char) (c : Char) (h : l.getLast? = some c) :
    c ∈ l := by
  rw [← List.head?_reverse] at h
  have h2 : c ∈ l.reverse := by
    cases hr : l.reverse with
    | nil => rw [hr] at h; simp at h
    | cons x xs =>
      rw [hr] at h
      obtain rfl : x = c := by simpa using h
      exact List.mem_cons_self _ _
  exact List.mem_reverse.1 h2

theorem normalizeL_fixed (ws : List (List Char))
    (hw : ∀ w ∈ ws, w ≠ [] ∧ ∀ c ∈ w, pyWsChar c = false)
    (hrep : ∀ c ∈ joinSp ws, c ≠ '_' ∧ c ≠ '-')
    (hhead : ∀ c, (joinSp ws).head? = some c →
      stripSetChar c = false ∧ pyWsChar c = false)
    (hlast : ∀ c, (joinSp ws).getLast? = some c →
      stripSetChar c = false ∧ pyWsChar c = false) :
    normalizeL (joinSp ws) = joinSp ws := by
  by_cases hy : joinSp ws = []
  · rw [hy]; rfl
  · obtain ⟨c, t, hct⟩ := List.exists_cons_of_ne_nil hy
    obtain ⟨hcS, hcW⟩ := hhead c (by rw [hct]; rfl)
    obtain ⟨d, hd⟩ := Option.isSome_iff_exists.1 (List.getLast?_isSome.2 hy)
    obtain ⟨hdS, hdW⟩ := hlast d hd
    unfold normalizeL
    rw [if_neg (by simp only [List.isEmpty_iff]; exact hy)]
    rw [pyStrip_eq_self pyWsChar (joinSp ws) c d (by rw [hct]; rfl) hcW hd hdW]
    rw [pyStrip_eq_self stripSetChar (joinSp ws) c d (by rw [hct]; rfl) hcS hd hdS]
    rw [pyReplaceChar_eq_self '_' ' ' _ (fun c hc => (hrep c hc).1)]
    rw [pyReplaceChar_eq_self '-' ' ' _ (fun c hc => (hrep c hc).2)]
    rw [pySplitWs_joinSp ws hw]

theorem normalizeL_idem (l : List Char)
    (hl : ∀ c ∈ l, c ≠ '-' ∧ (pyWsChar c = true → stripSetChar c = true)) :
    normalizeL (normalizeL l) = normalizeL l := by
  by_cases h0 : l = []
  · subst h0; rfl
  have hguard : normalizeL l = joinSp (pySplitWs (pyReplaceChar '-' ' '
      (pyReplaceChar '_' ' ' (pyStrip stripSetChar (pyStrip pyWsChar l))))) := by
    unfold normalizeL
    rw [if_neg (by simp only [List.isEmpty_iff]; exact h0)]
  obtain ⟨t2, ht2⟩ : ∃ t2, pyStrip stripSetChar (pyStrip pyWsChar l) = t2 := ⟨_, rfl⟩
  obtain ⟨t3, ht3⟩ : ∃ t3, pyReplaceChar '_' ' ' t2 = t3 := ⟨_, rfl⟩
  obtain ⟨t4, ht4⟩ : ∃ t4, pyReplaceChar '-' ' ' t3 = t4 := ⟨_, rfl⟩
  obtain ⟨ws, hws⟩ : ∃ ws, pySplitWs t4 = ws := ⟨_, rfl⟩
  rw [ht2, ht3, ht4, hws] at hguard
  have hmem2 : ∀ c ∈ t2, c ∈ l := by
    intro c hc
    rw [← ht2] at hc
    exact mem_of_mem_pyStrip _ _ c (mem_of_mem_pyStrip _ _ c hc)
  have hmem4 : ∀ c ∈ t4, c = ' ' ∨ (c ∈ t2 ∧ c ≠ '_' ∧ c ≠ '-') := by
    intro c hc
    rw [← ht4] at hc
    rcases mem_pyReplaceChar _ _ _ c hc with h | ⟨h3, hdash⟩
    · exact Or.inl h
    · rw [← ht3] at h3
      rcases mem_pyReplaceChar _ _ _ c h3 with h | ⟨h2, hus⟩
      · exact Or.inl h
      · exact Or.inr ⟨h2, hus, hdash⟩
  have hw : ∀ w ∈ ws, w ≠ [] ∧ ∀ c ∈ w, pyWsChar c = false := by
    intro w hwmem
    rw [← hws] at hwmem
    unfold pySplitWs at hwmem
    refine ⟨?_, ?_⟩
    · have := List.of_mem_filter hwmem
      simpa [List.isEmpty_iff] using this
    · intro c hc
      exact (mem_of_mem_splitOnP pyWsChar t4 w (List.mem_of_mem_filter hwmem) c hc).2
  have hm4 : ∀ w ∈ ws, ∀ c ∈ w, c ∈ t4 := by
    intro w hwmem c hc
    rw [← hws] at hwmem
    unfold pySplitWs at hwmem
    exact (mem_of_mem_splitOnP pyWsChar t4 w (List.mem_of_mem_filter hwmem) c hc).1
  have hrep : ∀ c ∈ joinSp ws, c ≠ '_' ∧ c ≠ '-' := by
    intro c hc
    rcases mem_joinSp ws c hc with rfl | ⟨w, hwmem, hcw⟩
    · exact ⟨by decide, by decide⟩
    · rcases hmem4 c (hm4 w hwmem c hcw) with rfl | ⟨_, h1, h2⟩
      · exact ⟨by decide, by decide⟩
      · exact ⟨h1, h2⟩
  by_cases ht4nil : t4 = []
  · have hwsnil : ws = [] := by rw [← hws, ht4nil]; rfl
    rw [hguard, hwsnil]
    rfl
  have ht2nil : t2 ≠ [] := by
    intro he
    apply ht4nil
    rw [← ht4, ← ht3, he]
    rfl
  obtain ⟨e, t2h, ht2e⟩ := List.exists_cons_of_ne_nil ht2nil
  have heS : stripSetChar e = false := by
    apply pyStrip_head?_false stripSetChar (pyStrip pyWsChar l) e
    rw [ht2, ht2e]; rfl
  have heMem : e ∈ l := hmem2 e (by rw [ht2e]; exact List.mem_cons_self _ _)
  have heW : pyWsChar e = false := by
    cases hB : pyWsChar e
    · rfl
    · exact absurd ((hl e heMem).2 hB) (by simp [heS])
  have heU : e ≠ '_' := by
    intro he; rw [he] at heS; simp [stripSetChar] at heS
  have heD : e ≠ '-' := (hl e heMem).1
  have ht4head : t4.head? = some e := by
    rw [← ht4, pyReplaceChar_head?, ← ht3, pyReplaceChar_head?, ht2e]
    simp [heU, heD]
  obtain ⟨a0, t4h, ht4e⟩ := List.exists_cons_of_ne_nil ht4nil
  have ha0 : a0 = e := by
    rw [ht4e] at ht4head; simpa using ht4head
  subst ha0
  obtain ⟨w0, rest, hsplit⟩ := splitOnP_cons_head pyWsChar a0 t4h heW
  have hwseq : ws = (a0 :: w0) :: List.filter (fun w => !w.isEmpty) rest := by
    rw [← hws]
    unfold pySplitWs
    rw [ht4e, hsplit]
    exact List.filter_cons_of_pos (by simp)
  have hheadC : ∀ c, (joinSp ws).head? = some c →
      stripSetChar c = false ∧ pyWsChar c = false := by
    intro c hc
    rw [hwseq, joinSp_head? _ _ (by simp)] at hc
    obtain rfl : a0 = c := by simpa using hc
    exact ⟨heS, heW⟩
  obtain ⟨d, hd2⟩ := Option.isSome_iff_exists.1 (List.getLast?_isSome.2 ht2nil)
  have hdS : stripSetChar d = false := by
    apply pyStrip_getLast?_false stripSetChar (pyStrip pyWsChar l) d
    rw [ht2]; exact hd2
  have hdMem : d ∈ l := hmem2 d (mem_of_getLast?Char t2 d hd2)
  have hdW : pyWsChar d = false := by
    cases hB : pyWsChar d
    · rfl
    · exact absurd ((hl d hdMem).2 hB) (by simp [hdS])
  have hdU : d ≠ '_' := by
    intro he; rw [he] at hdS; simp [stripSetChar] at hdS
  have hdD : d ≠ '-' := (hl d hdMem).1
  have ht4last : t4.getLast? = some d := by
    rw [← ht4, pyReplaceChar_getLast?, ← ht3, pyReplaceChar_getLast?, hd2]
    simp [hdU, hdD]
  rcases List.eq_nil_or_concat t4 with hnil | ⟨init, d0, hinit⟩
  · exact absurd hnil ht4nil
  rw [List.concat_eq_append] at hinit
  have hd0 : d0 = d := by
    rw [hinit, List.getLast?_concat] at ht4last
    simpa using ht4last
  subst hd0
  have hsplit4 : t4.splitOnP pyWsChar = modLast (· ++ [d0]) (init.splitOnP pyWsChar) := by
    rw [hinit]
    exact splitOnP_concat pyWsChar d0 hdW init
  rcases List.eq_nil_or_concat (init.splitOnP pyWsChar) with hnil | ⟨segs, seg, hsegs⟩
  · exact absurd hnil (List.splitOnP_ne_nil _ _)
  rw [List.concat_eq_append] at hsegs
  have hwslast : ws = List.filter (fun w => !w.isEmpty) segs ++ [seg ++ [d0]] := by
    rw [← hws]
    unfold pySplitWs
    rw [hsplit4, hsegs, modLast_concat, List.filter_append]
    congr 1
    rw [show [seg ++ [d0]] = (seg ++ [d0]) :: ([] : List (List Char)) from rfl,
      List.filter_cons_of_pos (by simp), List.filter_nil]
  have hlastC : ∀ c, (joinSp ws).getLast? = some c →
      stripSetChar c = false ∧ pyWsChar c = false := by
    intro c hc
    rw [hwslast, joinSp_getLast? _ _ (by simp), List.getLast?_concat] at hc
    obtain rfl : d0 = c := by simpa using hc
    exact ⟨hdS, hdW⟩
  rw [hguard]
  exact normalizeL_fixed ws hw hrep hheadC hlastC

/-- C8 counterexample: `normalize_country_name` is not idempotent.  A trailing
hyphen is not in the explicit strip set, so it shields a trailing dot; the
hyphen then becomes a space and is dropped by the split/join, leaving a
trailing dot that a second application strips. -/
theorem C8_counterexample :
    normalize_country_name "a.-" = "a." ∧
    normalize_country_name "a." = "a" ∧
    normalize_country_name (normalize_country_name "a.-") ≠
      normalize_country_name "a.-" := by
  refine ⟨by decide, by decide, by decide⟩

/-- C8 (amended): `normalize_country_name` is idempotent on every string that
contains no hyphen and no Python whitespace character outside the strip set
(i.e. whose whitespace, in the full `str.isspace` sense including vertical
tab, NBSP and the Unicode spaces, is limited to space, tab, CR, LF) — a
hyphen or a whitespace character outside the strip set can shield a boundary
character from the strips and break idempotence; normalize is total and maps
the empty string to itself. -/
theorem C8_normalize_idempotent (s : String)
    (hs : ∀ c ∈ s.toList, c ≠ '-' ∧ (pyWsChar c = true → stripSetChar c = true)) :
    normalize_country_name (normalize_country_name s) = normalize_country_name s ∧
    normalize_country_name "" = "" := by
  refine ⟨?_, rfl⟩
  unfold normalize_country_name
  exact congrArg List.asString (normalizeL_idem s.toList hs)

/-- C8 witness: idempotence at a concrete hyphen-free string. -/
theorem C8_witness :
    normalize_country_name (normalize_country_name " hello  world_x ") =
      normalize_country_name " hello  world_x " :=
  (C8_normalize_idempotent " hello  world_x " (by decide)).1
